import Mathlib

/-!
Verification of the PBO archive codec in `src/Arma3/pbo.py` (class `PBOFile`).

Bytes are modelled as natural numbers below 256 in `List Nat`; Python `bytes`
values become such lists.  Strings keep Lean's `String` type; Python's
`encode('ascii', errors='ignore')` and `decode('ascii', errors='ignore')`
become explicit filters on code points.  `struct.pack('<I', n)` /
`struct.unpack('<I', ...)` become `encodeU32` / `decodeU32`; `struct.pack`
raises `struct.error` at or above `2 ^ 32`, which `create_pbo` models with
an explicit range check on every u32 header field it writes.  The
filesystem walk of `create_pbo` is modelled by its result: the list of files
found, each with relative path (host separator `/`), content bytes, and
modification time already truncated to whole seconds by `int(st_mtime)`.
Side-effecting extraction is modelled by the list of files written together
with an optional error, so that files written before a fatal error remain
visible, as they do on a real filesystem.
-/

namespace PBOFile

/-- Errors raised by the codec: `create_pbo` raises on an empty source tree
and, through `struct.pack('<I', ...)`, a `struct.error` when a header field
does not fit an unsigned 32-bit integer; `extract_pbo` raises on an archive
with zero decoded entries and on an entry whose declared size exceeds the
remaining bytes. -/
inductive PboErr where
  | EmptySource
  | StructError
  | NoEntries
  | TruncatedArchive
deriving DecidableEq

/-- Model of `PBOFile.pack_string` (pbo.py lines 18-21):
`s.encode('ascii', errors='ignore') + b'\x00'`.  Code points below 128 are
kept, all others are dropped, and a null byte is appended. -/
def pack_string (s : String) : List Nat :=
  (s.data.filter (fun c => c.toNat < 128)).map Char.toNat ++ [0]

/-- Model of `bytes.decode('ascii', errors='ignore')`: bytes at or above 128
are dropped, the rest become the characters of the result. -/
def asciiDecodeLossy (bs : List Nat) : String :=
  String.mk ((bs.filter (fun b => b < 128)).map Char.ofNat)

/-- Position of the first zero byte of a list, if any. -/
def findNullFrom : List Nat → Option Nat
  | [] => none
  | b :: bs => if b = 0 then some 0 else (findNullFrom bs).map (· + 1)

/-- Model of `data.find(b'\x00', offset)`: absolute index of the first zero
byte at or after `offset`, if any. -/
def findNull (data : List Nat) (offset : Nat) : Option Nat :=
  (findNullFrom (data.drop offset)).map (· + offset)

/-- Model of `PBOFile.unpack_string` (pbo.py lines 23-29): scan for the next
null byte; on failure return the empty string and the buffer length, on
success return the lossily ASCII-decoded slice and the offset just past the
null terminator. -/
def unpack_string (data : List Nat) (offset : Nat) : String × Nat :=
  match findNull data offset with
  | none => ("", data.length)
  | some e => (asciiDecodeLossy ((data.drop offset).take (e - offset)), e + 1)

/-- Little-endian byte encoding behind `struct.pack('<I', n)`.  CPython
raises `struct.error` for `n ≥ 2 ^ 32`; `create_pbo` models that raise with
an explicit range check covering all its `struct.pack` call sites, so this
encoding is only reached below `2 ^ 32`. -/
def encodeU32 (n : Nat) : List Nat :=
  [n % 256, n / 256 % 256, n / 65536 % 256, n / 16777216 % 256]

/-- Model of `struct.unpack('<I', data[offset:offset+4])[0]`.  The source
always guards the four reads with a bounds check, so the default 0 for an
out-of-range index is never exercised on the guarded paths. -/
def decodeU32 (data : List Nat) (offset : Nat) : Nat :=
  data.getD offset 0 + 256 * data.getD (offset + 1) 0
    + 65536 * data.getD (offset + 2) 0 + 16777216 * data.getD (offset + 3) 0

/-- Host path separator; the model fixes a POSIX host, where `os.sep` is
the forward slash. -/
def osSep : Char := '/'

/-- Model of `str(relative_path).replace(os.sep, '\\')` (pbo.py line 42):
every host separator in the relative path becomes a backslash. -/
def sepToBackslash (s : String) : String :=
  String.mk (s.data.map (fun c => if c = osSep then '\\' else c))

/-- Model of `file_info['name'].replace('\\', os.sep)` (pbo.py line 179):
every backslash in a decoded entry name becomes the host separator. -/
def backslashToSep (s : String) : String :=
  String.mk (s.data.map (fun c => if c = '\\' then osSep else c))

/-- One regular file found by the `os.walk` of `create_pbo`: relative path
(host separators), content bytes, and `int(st_mtime)`. -/
structure SrcFile where
  path : String
  data : List Nat
  mtime : Nat
deriving DecidableEq

/-- One element of the `file_headers` list built by `create_pbo`
(pbo.py lines 59-72). -/
structure FileHeader where
  name : String
  method : Nat
  original_size : Nat
  reserved : Nat
  timestamp : Nat
  data_size : Nat
  offset : Nat
deriving DecidableEq

/-- Model of the first loop of `create_pbo` (pbo.py lines 59-74): build one
header per file, accumulating the payload offset. -/
def buildFileHeaders : List SrcFile → Nat → List FileHeader
  | [], _ => []
  | f :: fs, current_offset =>
    { name := sepToBackslash f.path, method := 0, original_size := f.data.length,
      reserved := 0, timestamp := f.mtime, data_size := f.data.length,
      offset := current_offset } :: buildFileHeaders fs (current_offset + f.data.length)

/-- Model of the header-writing loop body of `create_pbo` (pbo.py lines
77-83): null-terminated name then the five little-endian u32 fields, in
source order. -/
def writeHeader (h : FileHeader) : List Nat :=
  pack_string h.name ++ encodeU32 h.method ++ encodeU32 h.original_size
    ++ encodeU32 h.reserved ++ encodeU32 h.timestamp ++ encodeU32 h.data_size

/-- Preamble written by `create_pbo` (pbo.py lines 51-53): one null byte,
`b'sreV\x00'`, sixteen zero bytes. -/
def preambleBytes : List Nat :=
  [0] ++ [115, 114, 101, 86, 0] ++ List.replicate 16 0

/-- Terminator header written by `create_pbo` (pbo.py lines 86-92): a null
byte and five zero u32 fields. -/
def terminatorBytes : List Nat :=
  [0] ++ encodeU32 0 ++ encodeU32 0 ++ encodeU32 0 ++ encodeU32 0 ++ encodeU32 0

/-- Checksum placeholder written by `create_pbo` (pbo.py line 102):
21 zero bytes. -/
def checksumBytes : List Nat := List.replicate 21 0

/-- Model of `PBOFile.create_pbo` (pbo.py lines 32-105) applied to the list
of files found by the walk: raise on an empty list; raise `struct.error`
when any u32 header field is at or above `2 ^ 32`, as `struct.pack('<I', ...)`
does in the header-writing loop (pbo.py lines 77-83) — the source aborts
mid-write there, leaving a partial output file but never a complete
archive; otherwise write the preamble, the headers, the terminator, the
concatenated payloads and the checksum placeholder.  Of the five fields
only `original_size`, `timestamp` and `data_size` can overflow (`method`
and `reserved` are always 0), so the check is per file on its size and its
timestamp. -/
def create_pbo (files : List SrcFile) : Except PboErr (List Nat) :=
  if files.isEmpty then .error .EmptySource
  else if files.all (fun f =>
      decide (f.data.length < 4294967296) && decide (f.mtime < 4294967296)) then
    .ok (preambleBytes
      ++ ((buildFileHeaders files 0).map writeHeader).flatten
      ++ terminatorBytes
      ++ (files.map (fun f => f.data)).flatten
      ++ checksumBytes)
  else .error .StructError

/-- Entry accumulated into `files_info` by the header loop of `extract_pbo`
(pbo.py lines 159-163): name, declared data size, timestamp. -/
structure HeaderInfo where
  name : String
  size : Nat
  timestamp : Nat
deriving DecidableEq

/-- One file written by `extract_pbo`: destination-relative name (host
separators), content bytes, restored timestamp. -/
structure ExtFile where
  name : String
  data : List Nat
  mtime : Nat
deriving DecidableEq

/-- Model of the product-header skip of `extract_pbo` (pbo.py lines
115-118): advance to the first null byte and step past it; with no null
byte the loop runs to the end and the cursor still steps once more. -/
def skipProduct (data : List Nat) : Nat :=
  match findNull data 0 with
  | some i => i + 1
  | none => data.length + 1

/-- Model of the `sreV` check of `extract_pbo` (pbo.py lines 121-124): when
`offset + 4 < len(data)` and the next four bytes spell `sreV`, skip those
four bytes, one null byte and sixteen reserved bytes. -/
def sreVSkip (data : List Nat) (offset : Nat) : Nat :=
  if offset + 4 < data.length ∧ (data.drop offset).take 4 = [115, 114, 101, 86] then
    offset + 21
  else offset

/-- Header-table loop of `extract_pbo` (pbo.py lines 129-163), written with
explicit fuel so that it is structurally recursive and computes by kernel
reduction.  The loop runs while the cursor is inside the buffer; an empty
decoded name is the terminator (cursor advances past its twenty field
bytes); a non-empty name with fewer than twenty bytes left stops the scan
silently; otherwise the five u32 fields sit at the post-name cursor plus
0, 4, 8, 12, 16, of which `packing_method` (offset +0), `original_size`
(+4) and `reserved` (+8) are read and discarded by the source, while
`timestamp` (+12) and `data_size` (+16) are recorded.  Each iteration of
the source loop strictly increases the cursor, so `data.length + 1` units
of fuel always suffice; `readHeadersF_congr` below proves the result is
independent of the fuel once it exceeds `data.length - offset`. -/
def readHeadersF (data : List Nat) : Nat → Nat → List HeaderInfo × Nat
  | 0, offset => ([], offset)
  | fuel + 1, offset =>
    if offset < data.length then
      if (unpack_string data offset).1 = "" then ([], (unpack_string data offset).2 + 20)
      else if (unpack_string data offset).2 + 20 > data.length then
        ([], (unpack_string data offset).2)
      else
        ({ name := (unpack_string data offset).1,
           size := decodeU32 data ((unpack_string data offset).2 + 16),
           timestamp := decodeU32 data ((unpack_string data offset).2 + 12) }
            :: (readHeadersF data fuel ((unpack_string data offset).2 + 20)).1,
          (readHeadersF data fuel ((unpack_string data offset).2 + 20)).2)
    else ([], offset)

/-- Header-table parse of `extract_pbo`: the loop of pbo.py lines 129-163,
returning the decoded entries and the final cursor (start of the payload
region). -/
def readHeaders (data : List Nat) (offset : Nat) : List HeaderInfo × Nat :=
  readHeadersF data (data.length + 1) offset

/-- Extraction loop of `extract_pbo` (pbo.py lines 169-196): for each entry
check that `offset + size` is within the buffer (otherwise stop with
`TruncatedArchive`, keeping the files already written), slice the payload,
translate separators, record the timestamp. -/
def extractFiles (data : List Nat) : List HeaderInfo → Nat → List ExtFile × Option PboErr
  | [], _ => ([], none)
  | h :: rest, offset =>
    if offset + h.size > data.length then ([], some .TruncatedArchive)
    else
      let file_data := (data.drop offset).take h.size
      let r := extractFiles data rest (offset + h.size)
      ({ name := backslashToSep h.name, data := file_data, mtime := h.timestamp } :: r.1, r.2)

/-- Preamble skip plus header-table parse of `extract_pbo` (pbo.py lines
112-163). -/
def parseHeadersPhase (data : List Nat) : List HeaderInfo × Nat :=
  readHeaders data (sreVSkip data (skipProduct data))

/-- Model of `PBOFile.extract_pbo` (pbo.py lines 108-199) on the archive
bytes: parse the preamble and header table, raise `NoEntries` when no entry
was decoded, otherwise run the extraction loop.  The first component lists
the files written, the second the fatal error, if any. -/
def extract_pbo (data : List Nat) : List ExtFile × Option PboErr :=
  let p := parseHeadersPhase data
  if p.1.isEmpty then ([], some .NoEntries)
  else extractFiles data p.1 p.2

/-- Idealised extraction of a list of entries starting at a payload cursor,
with no bounds check: used to describe the files `extractFiles` has written
before a truncation error. -/
def extractAll (data : List Nat) : List HeaderInfo → Nat → List ExtFile
  | [], _ => []
  | h :: rest, offset =>
    { name := backslashToSep h.name, data := (data.drop offset).take h.size,
      mtime := h.timestamp } :: extractAll data rest (offset + h.size)

/-- Sum of the declared sizes of a list of entries. -/
def sizesSum (hs : List HeaderInfo) : Nat := (hs.map (fun h => h.size)).sum

/-- Integer percentage in the progress messages as the spec states it:
the exact floor of `i / n * 100`. -/
def reportedPercent (i n : Nat) : Nat := i * 100 / n

/-- Round the fraction `num / den` (with `den > 0`) to the nearest integer,
ties to even: the rounding used by binary64 arithmetic on the scaled
significand. -/
def roundHalfEvenNat (num den : Nat) : Nat :=
  let q := num / den
  let r := num % den
  if 2 * r < den then q
  else if den < 2 * r then q + 1
  else if q % 2 = 0 then q else q + 1

/-- Round the positive rational `a / b` to the nearest binary64 value
(53-bit significand, round to nearest, ties to even), returned as a dyadic
pair `(m, k)` of value `m / 2 ^ k`.  Faithful for the range met here:
values in `(2 ^ (-100), 2 ^ 52)`, so no overflow and no subnormals. -/
def fl53 (a b : Nat) : Nat × Nat :=
  if a = 0 ∨ b = 0 then (0, 0)
  else
    let k := (((List.range 200).filter (fun k => b * 2 ^ 52 ≤ a * 2 ^ k)).head?).getD 0
    (roundHalfEvenNat (a * 2 ^ k) b, k)

/-- Model of the source expression `int((i / n) * 100)` (pbo.py lines 94 and
174) under CPython binary64 arithmetic: `i / n` is rounded to a double, the
product with 100 is rounded again, and `int` truncates toward zero (a floor,
for the nonnegative values here). -/
def pyProgressPercent (i n : Nat) : Nat :=
  let x := fl53 i n
  let y := fl53 (100 * x.1) (2 ^ x.2)
  y.1 / 2 ^ y.2

/-- Bytes of the entry header `create_pbo` emits for one source file: the
value of `writeHeader` on the record `buildFileHeaders` builds for it. -/
def headerBytesOf (f : SrcFile) : List Nat :=
  pack_string (sepToBackslash f.path) ++ encodeU32 0 ++ encodeU32 f.data.length
    ++ encodeU32 0 ++ encodeU32 f.mtime ++ encodeU32 f.data.length

/-- Well-formedness of one relative path for round-trip statements: the
path is nonempty, every character is a nonzero ASCII code point, and none
is a backslash.  Real POSIX relative paths whose names survive ASCII
encoding intact are exactly of this shape. -/
abbrev goodPath (p : String) : Prop :=
  p.data ≠ [] ∧ ∀ c ∈ p.data, 0 < c.toNat ∧ c.toNat < 128 ∧ c ≠ '\\'

/-- Source tree with one regular file whose relative path has no ASCII code
point, so its packed name encodes to the empty byte string. -/
def c9Tree : List SrcFile := [{ path := "ñ", data := [10, 20, 30], mtime := 5 }]

/-- Archive bytes `create_pbo` produces for `c9Tree`: the entry header's
name field is a lone null byte, indistinguishable from the start of the
terminator header. -/
def c9Bytes : List Nat :=
  preambleBytes ++ ([0] ++ encodeU32 0 ++ encodeU32 3 ++ encodeU32 0
    ++ encodeU32 5 ++ encodeU32 3) ++ terminatorBytes ++ [10, 20, 30] ++ checksumBytes

/-- Archive whose single entry declares five payload bytes while only two
remain: preamble, header for name `a` with dataSize 5, terminator, then a
two-byte payload. -/
def truncTestBytes : List Nat :=
  preambleBytes ++ ([97, 0] ++ encodeU32 0 ++ encodeU32 5 ++ encodeU32 0
    ++ encodeU32 0 ++ encodeU32 5) ++ terminatorBytes ++ [1, 2]

/-- With no zero byte in the leading block, the first zero of the
concatenation is the explicit one after it. -/
lemma findNullFrom_append_of_ne (xs rest : List Nat) (h : ∀ b ∈ xs, b ≠ 0) :
    findNullFrom (xs ++ 0 :: rest) = some xs.length := by
  induction xs with
  | nil => simp [findNullFrom]
  | cons b bs ih =>
    have hb : b ≠ 0 := h b (by simp)
    simp [findNullFrom, hb, ih (fun x hx => h x (by simp [hx]))]

/-- A null byte found at or after `offset` lies at or after `offset`. -/
lemma findNull_ge {data : List Nat} {offset e : Nat} (h : findNull data offset = some e) :
    offset ≤ e := by
  unfold findNull at h
  cases hf : findNullFrom (data.drop offset) with
  | none => rw [hf] at h; simp at h
  | some i => rw [hf] at h; simp at h; omega

/-- When the decoded name is non-empty, the cursor strictly advances. -/
lemma unpack_string_snd_gt (data : List Nat) (offset : Nat)
    (h : (unpack_string data offset).1 ≠ "") : offset < (unpack_string data offset).2 := by
  unfold unpack_string at h ⊢
  cases hf : findNull data offset with
  | none => rw [hf] at h; simp at h
  | some e =>
    have := findNull_ge hf
    simp only [Prod.snd]
    omega

/-- The buffer byte at an in-range index of a decomposition `drop o = l ++ rest`. -/
lemma getD_of_drop_eq {data rest : List Nat} {o i : Nat} {l : List Nat}
    (hd : data.drop o = l ++ rest) (hi : i < l.length) :
    data.getD (o + i) 0 = l.getD i 0 := by
  rw [List.getD_eq_getElem?_getD, List.getD_eq_getElem?_getD, ← List.getElem?_drop, hd]
  rw [List.getElem?_append, if_pos hi]

/-- Reading four little-endian bytes at an aligned cursor recovers the
encoded value. -/
lemma decodeU32_aligned {data rest : List Nat} {o n : Nat}
    (hd : data.drop o = encodeU32 n ++ rest) (hn : n < 4294967296) :
    decodeU32 data o = n := by
  have h0 := getD_of_drop_eq hd (show 0 < (encodeU32 n).length by simp [encodeU32])
  have h1 := getD_of_drop_eq hd (show 1 < (encodeU32 n).length by simp [encodeU32])
  have h2 := getD_of_drop_eq hd (show 2 < (encodeU32 n).length by simp [encodeU32])
  have h3 := getD_of_drop_eq hd (show 3 < (encodeU32 n).length by simp [encodeU32])
  simp only [Nat.add_zero] at h0
  unfold decodeU32
  rw [h0, h1, h2, h3]
  simp only [encodeU32, List.getD]
  simp
  omega

/-- Advancing a cursor past a known leading block of the remaining bytes. -/
lemma drop_add_of_drop_eq {data : List Nat} {o : Nat} {l rest : List Nat}
    (hd : data.drop o = l ++ rest) : data.drop (o + l.length) = rest := by
  rw [← List.drop_drop, hd, List.drop_left]

/-- The remaining bytes are exactly the buffer length minus the cursor, and
a nonempty remainder keeps the cursor strictly inside the buffer. -/
lemma length_facts_of_drop_eq {data : List Nat} {o : Nat} {l rest : List Nat}
    (hd : data.drop o = l ++ rest) : data.length - o = l.length + rest.length := by
  have := List.length_drop o data
  rw [hd] at this
  simp at this
  omega

/-- Decoding a string at a cursor aligned with a packed nonzero-ASCII name
yields that name and the cursor just past its null terminator. -/
lemma unpack_string_aligned (data : List Nat) (o : Nat) (cs : List Char) (rest : List Nat)
    (hd : data.drop o = cs.map Char.toNat ++ 0 :: rest)
    (hcs : ∀ c ∈ cs, 0 < c.toNat ∧ c.toNat < 128) :
    unpack_string data o = (String.mk cs, o + cs.length + 1) := by
  have hnz : ∀ b ∈ cs.map Char.toNat, b ≠ 0 := by
    intro b hb
    simp only [List.mem_map] at hb
    obtain ⟨c, hc, rfl⟩ := hb
    have := (hcs c hc).1
    omega
  have hfn : findNull data o = some (cs.length + o) := by
    unfold findNull
    rw [hd, findNullFrom_append_of_ne _ _ hnz]
    simp
  have hslice : (data.drop o).take (cs.length + o - o) = cs.map Char.toNat := by
    rw [hd]
    have he : cs.length + o - o = cs.length := by omega
    rw [he]
    exact List.take_left' (by simp)
  have hdec : asciiDecodeLossy (cs.map Char.toNat) = String.mk cs := by
    unfold asciiDecodeLossy
    rw [List.filter_eq_self.mpr ?keep]
    case keep =>
      intro b hb
      simp only [List.mem_map] at hb
      obtain ⟨c, hc, rfl⟩ := hb
      simpa using (hcs c hc).2
    rw [List.map_map]
    congr 1
    rw [show cs.map (Char.ofNat ∘ Char.toNat) = cs.map id from
      List.map_congr_left fun c _ => Char.ofNat_toNat c, List.map_id]
  unfold unpack_string
  rw [hfn]
  simp only []
  rw [hslice, hdec]
  congr 1
  omega

/-- Packing an all-ASCII string keeps every character. -/
lemma pack_string_of_ascii (s : String) (h : ∀ c ∈ s.data, c.toNat < 128) :
    pack_string s = s.data.map Char.toNat ++ [0] := by
  unfold pack_string
  rw [List.filter_eq_self.mpr (by intro c hc; simpa using h c hc)]

/-- Characters of a string built from a character list. -/
lemma mk_data (l : List Char) : (String.mk l).data = l := rfl

/-- A string is the string of its characters. -/
lemma mk_data_eta (s : String) : String.mk s.data = s := rfl

/-- Fuel irrelevance of the header-table loop: any two fuel values larger
than the remaining byte count give the same result. -/
lemma readHeadersF_congr (data : List Nat) :
    ∀ f1 f2 offset, data.length - offset < f1 → data.length - offset < f2 →
      readHeadersF data f1 offset = readHeadersF data f2 offset := by
  intro f1
  induction f1 with
  | zero => intro f2 offset h1 h2; omega
  | succ f1 ih =>
    intro f2 offset h1 h2
    cases f2 with
    | zero => omega
    | succ f2 =>
      simp only [readHeadersF]
      by_cases hlt : offset < data.length
      · simp only [if_pos hlt]
        by_cases hemp : (unpack_string data offset).1 = ""
        · simp [hemp]
        · simp only [if_neg hemp]
          by_cases hbig : (unpack_string data offset).2 + 20 > data.length
          · simp only [if_pos hbig]
          · simp only [if_neg hbig]
            have hgt := unpack_string_snd_gt data offset hemp
            rw [ih f2 ((unpack_string data offset).2 + 20) (by omega) (by omega)]
      · simp [if_neg hlt]

/-- One unfolding of the header-table loop of `extract_pbo`. -/
lemma readHeaders_step (data : List Nat) (offset : Nat) :
    readHeaders data offset =
      if offset < data.length then
        if (unpack_string data offset).1 = "" then ([], (unpack_string data offset).2 + 20)
        else if (unpack_string data offset).2 + 20 > data.length then
          ([], (unpack_string data offset).2)
        else
          ({ name := (unpack_string data offset).1,
             size := decodeU32 data ((unpack_string data offset).2 + 16),
             timestamp := decodeU32 data ((unpack_string data offset).2 + 12) }
              :: (readHeaders data ((unpack_string data offset).2 + 20)).1,
            (readHeaders data ((unpack_string data offset).2 + 20)).2)
      else ([], offset) := by
  show readHeadersF data (data.length + 1) offset = _
  simp only [readHeadersF]
  by_cases hlt : offset < data.length
  · simp only [if_pos hlt]
    by_cases hemp : (unpack_string data offset).1 = ""
    · simp [hemp]
    · simp only [if_neg hemp]
      by_cases hbig : (unpack_string data offset).2 + 20 > data.length
      · simp only [if_pos hbig]
      · simp only [if_neg hbig]
        have hgt := unpack_string_snd_gt data offset hemp
        rw [readHeadersF_congr data data.length (data.length + 1)
          ((unpack_string data offset).2 + 20) (by omega) (by omega)]
        rfl
  · simp [if_neg hlt]

/-- The header records built by `create_pbo` serialize to the per-file
header bytes, whatever payload offset they carry (it is never written). -/
lemma buildFileHeaders_map_writeHeader (fs : List SrcFile) :
    ∀ k, (buildFileHeaders fs k).map writeHeader = fs.map headerBytesOf := by
  induction fs with
  | nil => intro k; rfl
  | cons f fs ih =>
    intro k
    simp only [buildFileHeaders, List.map_cons, ih]
    rfl

/-- Characters of a separator-translated good path are nonzero ASCII. -/
lemma sepToBackslash_chars {p : String}
    (h : ∀ c ∈ p.data, 0 < c.toNat ∧ c.toNat < 128 ∧ c ≠ '\\') :
    ∀ c ∈ (sepToBackslash p).data, 0 < c.toNat ∧ c.toNat < 128 := by
  intro c hc
  rw [sepToBackslash, mk_data] at hc
  simp only [List.mem_map] at hc
  obtain ⟨c0, hc0, rfl⟩ := hc
  by_cases h0 : c0 = osSep
  · rw [if_pos h0]
    decide
  · rw [if_neg h0]
    exact ⟨(h c0 hc0).1, (h c0 hc0).2.1⟩

/-- Translating separators to backslashes and back restores any
backslash-free path. -/
lemma backslash_round {p : String} (h : ∀ c ∈ p.data, c ≠ '\\') :
    backslashToSep (sepToBackslash p) = p := by
  unfold backslashToSep sepToBackslash
  rw [mk_data, List.map_map]
  have hid : ∀ c ∈ p.data,
      ((fun c => if c = '\\' then osSep else c) ∘ fun c => if c = osSep then '\\' else c) c
        = c := by
    intro c hc
    by_cases h0 : c = osSep
    · simp [h0, osSep]
    · simp [Function.comp, h0, h c hc]
  rw [List.map_congr_left hid]
  simp [mk_data_eta]


/-- Parsing the header table that `create_pbo` wrote yields one entry per
file and leaves the cursor at the start of the payload region. -/
lemma readHeaders_aligned (fs : List SrcFile) :
    ∀ (data tail : List Nat) (o : Nat),
      data.drop o = (fs.map headerBytesOf).flatten ++ terminatorBytes ++ tail →
      (∀ f ∈ fs, goodPath f.path ∧ f.data.length < 4294967296 ∧ f.mtime < 4294967296) →
      readHeaders data o
        = (fs.map (fun f =>
            ({ name := sepToBackslash f.path, size := f.data.length,
               timestamp := f.mtime } : HeaderInfo)),
           o + ((fs.map headerBytesOf).flatten).length + 21) := by
  induction fs with
  | nil =>
    intro data tail o hd hwf
    simp only [List.map_nil, List.flatten_nil, List.nil_append] at hd
    have hlenf := length_facts_of_drop_eq hd
    have h21 : (terminatorBytes : List Nat).length = 21 := by decide
    have hlt : o < data.length := by omega
    have hd' : data.drop o
        = ([] : List Char).map Char.toNat ++ 0 :: (List.replicate 20 0 ++ tail) := by
      rw [hd, show (terminatorBytes : List Nat) = 0 :: List.replicate 20 0 from by decide]
      rfl
    have hup := unpack_string_aligned data o [] (List.replicate 20 0 ++ tail) hd' (by simp)
    have hfst : (unpack_string data o).1 = "" := by rw [hup]
    have hsnd : (unpack_string data o).2 = o + 1 := by simp [hup]
    rw [readHeaders_step, hfst, hsnd, if_pos hlt, if_pos rfl]
    simp
  | cons f fs ih =>
    intro data tail o hd hwf
    have hg := hwf f (by simp)
    have hchars := hg.1.2
    have hcs := sepToBackslash_chars hchars
    have hps := pack_string_of_ascii (sepToBackslash f.path) (fun c hc => (hcs c hc).2)
    have hhead : headerBytesOf f = ((sepToBackslash f.path).data.map Char.toNat ++ [0])
        ++ (encodeU32 0 ++ (encodeU32 f.data.length ++ (encodeU32 0 ++ (encodeU32 f.mtime
        ++ encodeU32 f.data.length)))) := by
      unfold headerBytesOf
      rw [hps]
      simp [List.append_assoc]
    rw [List.map_cons, List.flatten_cons, hhead] at hd
    simp only [List.append_assoc] at hd
    have hd2 : data.drop o = ((sepToBackslash f.path).data.map Char.toNat ++ [0])
        ++ (encodeU32 0 ++ (encodeU32 f.data.length ++ (encodeU32 0 ++ (encodeU32 f.mtime
          ++ (encodeU32 f.data.length ++ ((fs.map headerBytesOf).flatten
            ++ (terminatorBytes ++ tail))))))) := by
      rw [hd]
      simp [List.append_assoc]
    have hd1 : data.drop o = (sepToBackslash f.path).data.map Char.toNat
        ++ 0 :: (encodeU32 0 ++ (encodeU32 f.data.length ++ (encodeU32 0 ++ (encodeU32 f.mtime
          ++ (encodeU32 f.data.length ++ ((fs.map headerBytesOf).flatten
            ++ (terminatorBytes ++ tail))))))) := by
      rw [hd2]
      simp [List.append_assoc]
    have hup := unpack_string_aligned data o (sepToBackslash f.path).data _ hd1 hcs
    have hfst : (unpack_string data o).1 = sepToBackslash f.path := by
      rw [hup]
    have hsnd : (unpack_string data o).2 = o + (sepToBackslash f.path).data.length + 1 := by
      rw [hup]
    have hname : ¬ (sepToBackslash f.path = "") := by
      intro hcontra
      have hnil : (sepToBackslash f.path).data = [] := by rw [hcontra]
      rw [sepToBackslash, mk_data, List.map_eq_nil_iff] at hnil
      exact hg.1.1 hnil
    have hA := drop_add_of_drop_eq hd2
    have hlen1 : ((sepToBackslash f.path).data.map Char.toNat ++ [0]).length
        = (sepToBackslash f.path).data.length + 1 := by simp
    have hoassoc : o + ((sepToBackslash f.path).data.length + 1)
        = o + (sepToBackslash f.path).data.length + 1 := by omega
    rw [hlen1, hoassoc] at hA
    have hA12 : data.drop (o + (sepToBackslash f.path).data.length + 1 + 12)
        = encodeU32 f.mtime ++ (encodeU32 f.data.length ++ ((fs.map headerBytesOf).flatten
          ++ (terminatorBytes ++ tail))) := by
      have h3 : data.drop (o + (sepToBackslash f.path).data.length + 1)
          = (encodeU32 0 ++ (encodeU32 f.data.length ++ encodeU32 0))
            ++ (encodeU32 f.mtime ++ (encodeU32 f.data.length
              ++ ((fs.map headerBytesOf).flatten ++ (terminatorBytes ++ tail)))) := by
        rw [hA]
        simp [List.append_assoc]
      have h3d := drop_add_of_drop_eq h3
      have h3l : ((encodeU32 0 ++ (encodeU32 f.data.length ++ encodeU32 0)) : List Nat).length
          = 12 := by simp [encodeU32]
      rw [h3l] at h3d
      exact h3d
    have hA16 : data.drop (o + (sepToBackslash f.path).data.length + 1 + 16)
        = encodeU32 f.data.length ++ ((fs.map headerBytesOf).flatten
          ++ (terminatorBytes ++ tail)) := by
      have h4 : data.drop (o + (sepToBackslash f.path).data.length + 1)
          = (encodeU32 0 ++ (encodeU32 f.data.length ++ (encodeU32 0 ++ encodeU32 f.mtime)))
            ++ (encodeU32 f.data.length
              ++ ((fs.map headerBytesOf).flatten ++ (terminatorBytes ++ tail))) := by
        rw [hA]
        simp [List.append_assoc]
      have h4d := drop_add_of_drop_eq h4
      have h4l : ((encodeU32 0 ++ (encodeU32 f.data.length ++ (encodeU32 0
          ++ encodeU32 f.mtime))) : List Nat).length = 16 := by simp [encodeU32]
      rw [h4l] at h4d
      exact h4d
    have hA20 : data.drop (o + (sepToBackslash f.path).data.length + 1 + 20)
        = (fs.map headerBytesOf).flatten ++ terminatorBytes ++ tail := by
      have h5 : data.drop (o + (sepToBackslash f.path).data.length + 1)
          = (encodeU32 0 ++ (encodeU32 f.data.length ++ (encodeU32 0 ++ (encodeU32 f.mtime
            ++ encodeU32 f.data.length))))
            ++ ((fs.map headerBytesOf).flatten ++ (terminatorBytes ++ tail)) := by
        rw [hA]
        simp [List.append_assoc]
      have h5d := drop_add_of_drop_eq h5
      have h5l : ((encodeU32 0 ++ (encodeU32 f.data.length ++ (encodeU32 0 ++ (encodeU32 f.mtime
          ++ encodeU32 f.data.length)))) : List Nat).length = 20 := by simp [encodeU32]
      rw [h5l] at h5d
      rw [h5d]
      simp [List.append_assoc]
    have hts := decodeU32_aligned hA12 hg.2.2
    have hsz := decodeU32_aligned hA16 hg.2.1
    have hlenf := length_facts_of_drop_eq hd2
    have hlt : o < data.length := by
      have hpos : (0 : Nat) < ((sepToBackslash f.path).data.map Char.toNat ++ [0]).length := by
        simp
      omega
    have hfit : ¬ (o + (sepToBackslash f.path).data.length + 1 + 20 > data.length) := by
      have hr := length_facts_of_drop_eq hA20
      have h21 : ((fs.map headerBytesOf).flatten ++ terminatorBytes).length
          = ((fs.map headerBytesOf).flatten).length + 21 := by
        simp [show (terminatorBytes : List Nat).length = 21 from by decide]
      omega
    have hrec := ih data tail (o + (sepToBackslash f.path).data.length + 1 + 20) hA20
      (fun g hgmem => hwf g (by simp [hgmem]))
    have hrec1 : (readHeaders data (o + (sepToBackslash f.path).data.length + 1 + 20)).1
        = fs.map (fun g =>
            ({ name := sepToBackslash g.path, size := g.data.length,
               timestamp := g.mtime } : HeaderInfo)) := by rw [hrec]
    have hrec2 : (readHeaders data (o + (sepToBackslash f.path).data.length + 1 + 20)).2
        = o + (sepToBackslash f.path).data.length + 1 + 20
          + ((fs.map headerBytesOf).flatten).length + 21 := by rw [hrec]
    have hlenH : (headerBytesOf f).length = (sepToBackslash f.path).data.length + 21 := by
      rw [hhead]
      simp [encodeU32]
      try omega
    rw [readHeaders_step, hfst, hsnd, if_pos hlt, if_neg hname, if_neg hfit,
      hts, hsz, hrec1, hrec2, List.map_cons, List.map_cons, List.flatten_cons,
      List.length_append, hlenH]
    simp only [Prod.mk.injEq]
    exact ⟨trivial, by omega⟩

/-- One unfolding of the extraction loop. -/
lemma extractFiles_cons (data : List Nat) (h : HeaderInfo) (rest : List HeaderInfo) (o : Nat) :
    extractFiles data (h :: rest) o =
      if o + h.size > data.length then ([], some .TruncatedArchive)
      else
        ({ name := backslashToSep h.name, data := (data.drop o).take h.size,
           mtime := h.timestamp } :: (extractFiles data rest (o + h.size)).1,
          (extractFiles data rest (o + h.size)).2) := rfl

/-- One unfolding of `extract_pbo` through its header phase. -/
lemma extract_pbo_eq (data : List Nat) :
    extract_pbo data =
      if (parseHeadersPhase data).1.isEmpty then ([], some .NoEntries)
      else extractFiles data (parseHeadersPhase data).1 (parseHeadersPhase data).2 := rfl

/-- Skipping the product header of a stream that starts with a null byte. -/
lemma skipProduct_cons_zero (t : List Nat) : skipProduct (0 :: t) = 1 := by
  unfold skipProduct findNull
  simp [findNullFrom]

/-- The signature check on a stream that begins with the preamble lands the
cursor at byte 22. -/
lemma sreVSkip_preamble (R : List Nat) :
    sreVSkip (preambleBytes ++ R) 1 = 22 := by
  have hB : preambleBytes ++ R
      = 0 :: 115 :: 114 :: 101 :: 86 :: 0 :: (List.replicate 16 0 ++ R) := by
    simp [preambleBytes]
  have hc : 1 + 4 < (0 :: 115 :: 114 :: 101 :: 86 :: 0 :: (List.replicate 16 0 ++ R)).length
      ∧ ((0 :: 115 :: 114 :: 101 :: 86 :: 0 :: (List.replicate 16 0 ++ R)).drop 1).take 4
        = [115, 114, 101, 86] := by
    constructor
    · simp only [List.length_cons, List.length_append, List.length_replicate]
      omega
    · rfl
  rw [hB]
  unfold sreVSkip
  rw [if_pos hc]

/-- Parsing the preamble of any stream `create_pbo` wrote puts the cursor
at byte 22. -/
lemma parse_preamble (R : List Nat) :
    sreVSkip (preambleBytes ++ R) (skipProduct (preambleBytes ++ R)) = 22 := by
  have hB : preambleBytes ++ R
      = 0 :: ([115, 114, 101, 86, 0] ++ (List.replicate 16 0 ++ R)) := by
    simp [preambleBytes]
  have h1 : skipProduct (preambleBytes ++ R) = 1 := by
    rw [hB]
    exact skipProduct_cons_zero _
  rw [h1]
  exact sreVSkip_preamble R

/-- Extracting the entries aligned with the payload `create_pbo` wrote
restores every file: host-separator name, byte-identical content,
timestamp. -/
lemma extractFiles_aligned (fs : List SrcFile) :
    ∀ (data : List Nat) (o : Nat),
      data.drop o = (fs.map (fun f => f.data)).flatten ++ checksumBytes →
      (∀ f ∈ fs, ∀ c ∈ f.path.data, c ≠ '\\') →
      extractFiles data
          (fs.map (fun f =>
            ({ name := sepToBackslash f.path, size := f.data.length,
               timestamp := f.mtime } : HeaderInfo))) o
        = (fs.map (fun f => ({ name := f.path, data := f.data, mtime := f.mtime } : ExtFile)),
           none) := by
  induction fs with
  | nil => intro data o hd hb; rfl
  | cons f fs ih =>
    intro data o hd hb
    rw [List.map_cons, List.flatten_cons] at hd
    simp only [List.append_assoc] at hd
    have hlenf := length_facts_of_drop_eq hd
    have hck : (checksumBytes : List Nat).length = 21 := by decide
    have hrest : (((fs.map (fun f => f.data)).flatten ++ checksumBytes) : List Nat).length
        = ((fs.map (fun f => f.data)).flatten).length + 21 := by
      simp [hck]
    have hfit : ¬ (o + f.data.length > data.length) := by omega
    rw [List.map_cons, extractFiles_cons]
    dsimp only
    rw [if_neg hfit]
    have hdrec := drop_add_of_drop_eq hd
    have hrec := ih data (o + f.data.length) hdrec (fun g hg c hc => hb g (by simp [hg]) c hc)
    have hr1 : (extractFiles data (fs.map (fun f =>
        ({ name := sepToBackslash f.path, size := f.data.length,
           timestamp := f.mtime } : HeaderInfo))) (o + f.data.length)).1
        = fs.map (fun f => ({ name := f.path, data := f.data, mtime := f.mtime } : ExtFile)) := by
      rw [hrec]
    have hr2 : (extractFiles data (fs.map (fun f =>
        ({ name := sepToBackslash f.path, size := f.data.length,
           timestamp := f.mtime } : HeaderInfo))) (o + f.data.length)).2 = none := by
      rw [hrec]
    have hslice : (data.drop o).take f.data.length = f.data := by
      rw [hd]
      exact List.take_left' rfl
    rw [hr1, hr2, hslice, backslash_round (hb f (by simp)), List.map_cons]

/-- When the first `i` entries fit and entry `i` does not, extraction stops
at entry `i` with `TruncatedArchive`, keeping exactly the earlier files. -/
lemma extractFiles_trunc (data : List Nat) :
    ∀ (i : Nat) (hs : List HeaderInfo) (o : Nat), i < hs.length →
      (∀ j, j < i → o + sizesSum (hs.take (j + 1)) ≤ data.length) →
      data.length < o + sizesSum (hs.take i) + (hs.getD i ⟨"", 0, 0⟩).size →
      extractFiles data hs o = (extractAll data (hs.take i) o, some .TruncatedArchive) := by
  intro i
  induction i with
  | zero =>
    intro hs o hi hfit hfail
    cases hs with
    | nil => simp at hi
    | cons h rest =>
      have h0 : sizesSum ([] : List HeaderInfo) = 0 := rfl
      rw [List.take_zero, List.getD_cons_zero] at hfail
      have hcond : o + h.size > data.length := by omega
      rw [extractFiles_cons, if_pos hcond]
      simp [extractAll]
  | succ i ihi =>
    intro hs o hi hfit hfail
    cases hs with
    | nil => simp at hi
    | cons h rest =>
      have hi2 : i < rest.length := by
        simp only [List.length_cons] at hi
        omega
      have hfit0 := hfit 0 (by omega)
      have hsz1 : sizesSum ((h :: rest).take 1) = h.size := by
        simp [sizesSum]
      simp only [Nat.zero_add] at hfit0
      rw [hsz1] at hfit0
      have hfitc : ¬ (o + h.size > data.length) := by omega
      have hfits : ∀ j, j < i → o + h.size + sizesSum (rest.take (j + 1)) ≤ data.length := by
        intro j hj
        have hJ := hfit (j + 1) (by omega)
        rw [List.take_succ_cons] at hJ
        have hcons : sizesSum (h :: rest.take (j + 1))
            = h.size + sizesSum (rest.take (j + 1)) := by
          simp [sizesSum]
        omega
      have hconsi : sizesSum ((h :: rest).take (i + 1)) = h.size + sizesSum (rest.take i) := by
        rw [List.take_succ_cons]
        simp [sizesSum]
      have hgd : (h :: rest).getD (i + 1) ⟨"", 0, 0⟩ = rest.getD i ⟨"", 0, 0⟩ := by
        simp [List.getD_cons_succ]
      rw [hconsi, hgd] at hfail
      have hfails : data.length
          < o + h.size + sizesSum (rest.take i) + (rest.getD i ⟨"", 0, 0⟩).size := by
        omega
      have ihr := ihi rest (o + h.size) hi2 hfits hfails
      rw [extractFiles_cons, if_neg hfitc]
      have hr1 : (extractFiles data rest (o + h.size)).1
          = extractAll data (rest.take i) (o + h.size) := by rw [ihr]
      have hr2 : (extractFiles data rest (o + h.size)).2
          = some PboErr.TruncatedArchive := by rw [ihr]
      rw [hr1, hr2, List.take_succ_cons]
      rfl

/-- The byte stream `create_pbo` writes for a non-empty file list whose u32
header fields are all in range, with the header records flattened to
per-file header bytes. -/
lemma create_pbo_ok (files : List SrcFile) (h : files ≠ [])
    (hb : ∀ f ∈ files, f.data.length < 4294967296 ∧ f.mtime < 4294967296) :
    create_pbo files = .ok (preambleBytes
      ++ ((files.map headerBytesOf).flatten
      ++ (terminatorBytes
      ++ ((files.map (fun f => f.data)).flatten
      ++ checksumBytes)))) := by
  have hall : files.all (fun f =>
      decide (f.data.length < 4294967296) && decide (f.mtime < 4294967296)) = true := by
    rw [List.all_eq_true]
    intro f hf
    simp only [Bool.and_eq_true, decide_eq_true_eq]
    exact hb f hf
  unfold create_pbo
  rw [if_neg (by simpa using h), if_pos hall, buildFileHeaders_map_writeHeader]
  simp [List.append_assoc]

/-- A list with no zero byte has no null byte found. -/
lemma findNullFrom_eq_none (l : List Nat) (h : ∀ b ∈ l, b ≠ 0) : findNullFrom l = none := by
  induction l with
  | nil => rfl
  | cons b bs ih =>
    have hb : b ≠ 0 := h b (by simp)
    simp [findNullFrom, hb, ih (fun x hx => h x (by simp [hx]))]

/-- A zero byte at index `i` with no earlier zero byte is the one found. -/
lemma findNullFrom_eq_some (l : List Nat) :
    ∀ i, l[i]? = some 0 → (∀ j, j < i → l[j]? ≠ some 0) →
      findNullFrom l = some i := by
  induction l with
  | nil => intro i hi _; simp at hi
  | cons b bs ih =>
    intro i hi hj
    cases i with
    | zero =>
      simp at hi
      simp [findNullFrom, hi]
    | succ i =>
      have hb : b ≠ 0 := by
        intro hb0
        exact hj 0 (by omega) (by simp [hb0])
      have hbs := ih i (by simpa using hi) (fun j hjlt => by
        have hcons := hj (j + 1) (by omega)
        simpa using hcons)
      simp [findNullFrom, hb, hbs]

/-- Parsing the preamble and header table of the archive `create_pbo` wrote
for a well-formed tree. -/
lemma parseHeadersPhase_of_create (files : List SrcFile)
    (hwf : ∀ f ∈ files, goodPath f.path ∧ f.data.length < 4294967296 ∧ f.mtime < 4294967296) :
    parseHeadersPhase (preambleBytes
      ++ ((files.map headerBytesOf).flatten
      ++ (terminatorBytes
      ++ ((files.map (fun f => f.data)).flatten
      ++ checksumBytes))))
      = (files.map (fun f =>
          ({ name := sepToBackslash f.path, size := f.data.length,
             timestamp := f.mtime } : HeaderInfo)),
         22 + ((files.map headerBytesOf).flatten).length + 21) := by
  unfold parseHeadersPhase
  rw [parse_preamble]
  apply readHeaders_aligned files _ ((files.map (fun f => f.data)).flatten ++ checksumBytes) 22
    ?_ hwf
  rw [List.drop_left' (show (preambleBytes : List Nat).length = 22 from by decide)]
  simp [List.append_assoc]

/-- Extracting the archive `create_pbo` wrote for a well-formed non-empty
tree restores exactly the source files. -/
lemma extract_of_create (files : List SrcFile) (hne : files ≠ [])
    (hwf : ∀ f ∈ files, goodPath f.path ∧ f.data.length < 4294967296 ∧ f.mtime < 4294967296) :
    extract_pbo (preambleBytes
      ++ ((files.map headerBytesOf).flatten
      ++ (terminatorBytes
      ++ ((files.map (fun f => f.data)).flatten
      ++ checksumBytes))))
      = (files.map (fun f => ({ name := f.path, data := f.data, mtime := f.mtime } : ExtFile)),
         none) := by
  have hph := parseHeadersPhase_of_create files hwf
  rw [extract_pbo_eq]
  have hph1 : (parseHeadersPhase (preambleBytes
      ++ ((files.map headerBytesOf).flatten
      ++ (terminatorBytes
      ++ ((files.map (fun f => f.data)).flatten
      ++ checksumBytes))))).1
      = files.map (fun f =>
          ({ name := sepToBackslash f.path, size := f.data.length,
             timestamp := f.mtime } : HeaderInfo)) := by rw [hph]
  have hph2 : (parseHeadersPhase (preambleBytes
      ++ ((files.map headerBytesOf).flatten
      ++ (terminatorBytes
      ++ ((files.map (fun f => f.data)).flatten
      ++ checksumBytes))))).2
      = 22 + ((files.map headerBytesOf).flatten).length + 21 := by rw [hph]
  rw [hph1, hph2, if_neg (by simpa using hne)]
  apply extractFiles_aligned files _ _ ?_ (fun f hf c hc => ((hwf f hf).1.2 c hc).2.2)
  have hd22 : (preambleBytes
      ++ ((files.map headerBytesOf).flatten
      ++ (terminatorBytes
      ++ ((files.map (fun f => f.data)).flatten
      ++ checksumBytes)))).drop 22
      = ((files.map headerBytesOf).flatten ++ terminatorBytes)
        ++ ((files.map (fun f => f.data)).flatten ++ checksumBytes) := by
    rw [List.drop_left' (show (preambleBytes : List Nat).length = 22 from by decide)]
    simp [List.append_assoc]
  have hstep := drop_add_of_drop_eq hd22
  have hlen : (((files.map headerBytesOf).flatten ++ terminatorBytes) : List Nat).length
      = ((files.map headerBytesOf).flatten).length + 21 := by
    simp [show (terminatorBytes : List Nat).length = 21 from by decide]
  rw [hlen] at hstep
  have hidx : 22 + (((files.map headerBytesOf).flatten).length + 21)
      = 22 + ((files.map headerBytesOf).flatten).length + 21 := by omega
  rw [hidx] at hstep
  exact hstep

/-- Claim C1 (amended): for every directory tree with at least one regular
file, in which every relative path is a nonempty string of nonzero ASCII
characters containing no backslash, every file is smaller than 2^32 bytes
with byte values below 256, and every modification time is below 2^32
seconds, extracting the archive produced by `create_pbo` reproduces under
the destination exactly the relative paths of the tree, with byte-identical
contents and the second-truncated modification times, and creates no extra
files. -/
theorem create_extract_round_trip (files : List SrcFile) (hne : files ≠ [])
    (hwf : ∀ f ∈ files, goodPath f.path ∧ f.data.length < 4294967296 ∧ f.mtime < 4294967296
      ∧ ∀ b ∈ f.data, b < 256) :
    ∀ B, create_pbo files = .ok B →
      extract_pbo B
        = (files.map (fun f => ({ name := f.path, data := f.data, mtime := f.mtime } : ExtFile)),
           none) := by
  intro B hB
  rw [create_pbo_ok files hne
    (fun f hf => ⟨(hwf f hf).2.1, (hwf f hf).2.2.1⟩)] at hB
  injection hB with hB
  rw [← hB]
  exact extract_of_create files hne
    (fun f hf => ⟨(hwf f hf).1, (hwf f hf).2.1, (hwf f hf).2.2.1⟩)

/-- Witness for claim C1 on the concrete one-file tree `a/b.txt`. -/
theorem create_extract_round_trip_witness :
    extract_pbo (preambleBytes
      ++ (([{ path := "a/b.txt", data := [1, 2], mtime := 3 }].map headerBytesOf).flatten
      ++ (terminatorBytes
      ++ (([({ path := "a/b.txt", data := [1, 2], mtime := 3 } : SrcFile)].map
            (fun f => f.data)).flatten
      ++ checksumBytes))))
      = ([{ name := "a/b.txt", data := [1, 2], mtime := 3 }], none) :=
  (create_extract_round_trip [{ path := "a/b.txt", data := [1, 2], mtime := 3 }]
    (by decide) (by decide) _ rfl).trans rfl

/-- Counterexample to claim C1 as stated: a tree whose only regular file
has the non-ASCII relative path `ñ` is not reproduced — its packed name
encodes to the empty string, the header table decodes to zero entries, and
extraction fails with `NoEntries`, reproducing nothing. -/
theorem round_trip_fails_on_non_ascii_path :
    (create_pbo [{ path := "ñ", data := [65], mtime := 7 }]).map extract_pbo
      = .ok ([], some PboErr.NoEntries)
    ∧ ([] : List ExtFile) ≠ [{ name := "ñ", data := [65], mtime := 7 }] := by
  constructor
  · rfl
  · decide

/-- Claim C2 (amended): for every non-empty input tree in which every file
is smaller than 2^32 bytes and every modification time is below 2^32
seconds, the byte stream written by `create_pbo` is exactly one null byte,
the bytes `sreV` plus a null byte, 16 zero bytes, then per file in
enumeration order a null-terminated name followed by the five little-endian
u32 fields (method 0, originalSize = dataSize = file size, reserved 0,
timestamp = mtime in seconds), then a terminator of one null byte and five
zero u32 fields, then the raw file bytes concatenated in the same order
with no padding, then exactly 21 zero bytes. -/
theorem create_pbo_layout (files : List SrcFile) (hne : files ≠ [])
    (hb : ∀ f ∈ files, f.data.length < 4294967296 ∧ f.mtime < 4294967296) :
    create_pbo files = .ok ([0] ++ [115, 114, 101, 86] ++ [0] ++ List.replicate 16 0
      ++ (files.map (fun f => pack_string (sepToBackslash f.path)
            ++ encodeU32 0 ++ encodeU32 f.data.length ++ encodeU32 0
            ++ encodeU32 f.mtime ++ encodeU32 f.data.length)).flatten
      ++ ([0] ++ encodeU32 0 ++ encodeU32 0 ++ encodeU32 0 ++ encodeU32 0 ++ encodeU32 0)
      ++ (files.map (fun f => f.data)).flatten
      ++ List.replicate 21 0) := by
  rw [create_pbo_ok files hne hb]
  have hmap : files.map headerBytesOf
      = files.map (fun f => pack_string (sepToBackslash f.path)
          ++ encodeU32 0 ++ encodeU32 f.data.length ++ encodeU32 0
          ++ encodeU32 f.mtime ++ encodeU32 f.data.length) :=
    List.map_congr_left (fun f _ => rfl)
  rw [hmap]
  simp [preambleBytes, terminatorBytes, checksumBytes, List.append_assoc]

/-- Witness for claim C2 on a concrete one-file tree. -/
theorem create_pbo_layout_witness :
    create_pbo [{ path := "x", data := [7], mtime := 1 }]
      = .ok ([0] ++ [115, 114, 101, 86] ++ [0] ++ List.replicate 16 0
        ++ ([({ path := "x", data := [7], mtime := 1 } : SrcFile)].map
              (fun f => pack_string (sepToBackslash f.path)
                ++ encodeU32 0 ++ encodeU32 f.data.length ++ encodeU32 0
                ++ encodeU32 f.mtime ++ encodeU32 f.data.length)).flatten
        ++ ([0] ++ encodeU32 0 ++ encodeU32 0 ++ encodeU32 0 ++ encodeU32 0 ++ encodeU32 0)
        ++ ([({ path := "x", data := [7], mtime := 1 } : SrcFile)].map (fun f => f.data)).flatten
        ++ List.replicate 21 0) :=
  create_pbo_layout [{ path := "x", data := [7], mtime := 1 }] (by decide) (by decide)

/-- Counterexample to claim C2 as stated: a tree whose single file carries
the modification time 2^32 (a value `int(st_mtime)` reaches after February
2106) makes `struct.pack('<I', timestamp)` raise `struct.error` in the
header-writing loop, so `create_pbo` never writes the claimed byte stream
for that tree — it fails instead of returning the layout. -/
theorem layout_fails_on_out_of_range_mtime :
    create_pbo [{ path := "a", data := [1], mtime := 4294967296 }]
      = .error PboErr.StructError
    ∧ (Except.error PboErr.StructError : Except PboErr (List Nat))
      ≠ .ok ([0] ++ [115, 114, 101, 86] ++ [0] ++ List.replicate 16 0
        ++ ([({ path := "a", data := [1], mtime := 4294967296 } : SrcFile)].map
              (fun f => pack_string (sepToBackslash f.path)
                ++ encodeU32 0 ++ encodeU32 f.data.length ++ encodeU32 0
                ++ encodeU32 f.mtime ++ encodeU32 f.data.length)).flatten
        ++ ([0] ++ encodeU32 0 ++ encodeU32 0 ++ encodeU32 0 ++ encodeU32 0 ++ encodeU32 0)
        ++ ([({ path := "a", data := [1], mtime := 4294967296 } : SrcFile)].map
              (fun f => f.data)).flatten
        ++ List.replicate 21 0) := by
  constructor
  · rfl
  · intro h
    exact Except.noConfusion h

/-- Claim C3: for every archive in which some entry declares more payload
bytes than remain at its cursor, extraction fails with `TruncatedArchive`
when it reaches the first such entry, having written exactly the files of
the earlier entries and no partial file for the failing one. -/
theorem truncation_detected (data : List Nat) (i : Nat)
    (hi : i < (parseHeadersPhase data).1.length)
    (hfit : ∀ j, j < i →
      (parseHeadersPhase data).2 + sizesSum ((parseHeadersPhase data).1.take (j + 1))
        ≤ data.length)
    (hfail : data.length < (parseHeadersPhase data).2
      + sizesSum ((parseHeadersPhase data).1.take i)
      + ((parseHeadersPhase data).1.getD i ⟨"", 0, 0⟩).size) :
    extract_pbo data
      = (extractAll data ((parseHeadersPhase data).1.take i) (parseHeadersPhase data).2,
         some PboErr.TruncatedArchive) := by
  have hne : ¬ ((parseHeadersPhase data).1.isEmpty = true) := by
    intro hiso
    have hnil := List.isEmpty_iff.mp hiso
    rw [hnil] at hi
    simp at hi
  rw [extract_pbo_eq, if_neg hne]
  exact extractFiles_trunc data i (parseHeadersPhase data).1 (parseHeadersPhase data).2
    hi hfit hfail

/-- Witness for claim C3 on a concrete archive declaring five payload bytes
with only two present. -/
theorem truncation_detected_witness :
    extract_pbo truncTestBytes = ([], some PboErr.TruncatedArchive) :=
  (truncation_detected truncTestBytes 0 (by decide)
    (fun j hj => absurd hj (Nat.not_lt_zero j)) (by decide)).trans (by decide)

/-- Claim C4: every archive byte stream from which zero entry headers are
decoded makes `extract_pbo` fail with `NoEntries`, writing no files. -/
theorem zero_entries_no_entries (data : List Nat)
    (h : (parseHeadersPhase data).1 = []) :
    extract_pbo data = ([], some PboErr.NoEntries) := by
  rw [extract_pbo_eq, h]
  rfl

/-- Witness for claim C4 on the archive consisting of only the preamble and
the terminator header. -/
theorem zero_entries_no_entries_witness :
    extract_pbo (preambleBytes ++ terminatorBytes) = ([], some PboErr.NoEntries) :=
  zero_entries_no_entries (preambleBytes ++ terminatorBytes) (by decide)

/-- Claim C5: when the recursive walk finds zero regular files, `create_pbo`
fails with `EmptySource` and produces no output bytes. -/
theorem empty_source_rejected : create_pbo [] = .error PboErr.EmptySource := rfl

/-- Claim C6: `unpack_string` returns the empty string paired with the
buffer length when no null byte occurs at or after the offset; otherwise it
returns the lossily ASCII-decoded slice up to the first null byte and the
offset immediately past that null byte. -/
theorem unpack_string_spec (data : List Nat) (offset : Nat) :
    ((∀ j, offset ≤ j → data[j]? ≠ some 0) →
      unpack_string data offset = ("", data.length))
    ∧ (∀ e, offset ≤ e → data[e]? = some 0 →
        (∀ j, offset ≤ j → j < e → data[j]? ≠ some 0) →
        unpack_string data offset
          = (asciiDecodeLossy ((data.drop offset).take (e - offset)), e + 1)) := by
  constructor
  · intro h
    have hzz : ∀ b ∈ data.drop offset, b ≠ 0 := by
      intro b hb hb0
      obtain ⟨k, hk⟩ := List.mem_iff_getElem?.mp hb
      rw [List.getElem?_drop] at hk
      exact h (offset + k) (by omega) (by rw [hk, hb0])
    have hnone : findNull data offset = none := by
      unfold findNull
      rw [findNullFrom_eq_none _ hzz]
      rfl
    unfold unpack_string
    rw [hnone]
  · intro e he h0 hlt
    have hh1 : (data.drop offset)[e - offset]? = some 0 := by
      rw [List.getElem?_drop]
      rw [show offset + (e - offset) = e from by omega]
      exact h0
    have hh2 : ∀ j, j < e - offset → (data.drop offset)[j]? ≠ some 0 := by
      intro j hj
      rw [List.getElem?_drop]
      exact hlt (offset + j) (by omega) (by omega)
    have hsome : findNull data offset = some e := by
      unfold findNull
      rw [findNullFrom_eq_some (data.drop offset) (e - offset) hh1 hh2]
      simp only [Option.map_some', Option.some.injEq]
      omega
    unfold unpack_string
    rw [hsome]

/-- Witness for claim C6 on the two-byte buffer `[65, 0]`. -/
theorem unpack_string_spec_witness : unpack_string [65, 0] 0 = ("A", 2) :=
  ((unpack_string_spec [65, 0] 0).2 1 (by omega) (by decide)
    (fun j h0 hj => by
      have hj0 : j = 0 := by omega
      subst hj0
      decide)).trans (by decide)

/-- Claim C7 (divergence evaluation): the source computes the progress
percentage as `int((i / n) * 100)` in binary64 floating point; at n = 50
total items and item index i = 29 this yields 57, while the exact floor
used by the spec, `floor(i / n * 100)`, is 58.  `pyProgressPercent` models
the float evaluation exactly (correctly rounded division and product,
53-bit round-to-nearest-even), `reportedPercent` is the spec formula. -/
theorem progress_float_divergence :
    pyProgressPercent 29 50 = 57 ∧ reportedPercent 29 50 = 58 := by
  constructor
  · decide
  · decide

/-- Claim C8: the stored entry name is the relative path with every host
separator replaced by a backslash, and on extraction every backslash in a
decoded name is replaced by the host separator before the destination path
is formed; in particular `a/b/c.txt` is stored as the 9-character name with
backslashes and restored to `a/b/c.txt`. -/
theorem separator_translation :
    (∀ (files : List SrcFile) (k : Nat),
      (buildFileHeaders files k).map (fun h => h.name)
        = files.map (fun f => sepToBackslash f.path))
    ∧ (∀ (data : List Nat) (hs : List HeaderInfo) (o : Nat),
        (extractFiles data hs o).2 = none →
        (extractFiles data hs o).1.map (fun f => f.name)
          = hs.map (fun h => backslashToSep h.name))
    ∧ sepToBackslash "a/b/c.txt" = "a\\b\\c.txt"
    ∧ backslashToSep "a\\b\\c.txt" = "a/b/c.txt" := by
  refine ⟨?_, ?_, by decide, by decide⟩
  · intro files
    induction files with
    | nil => intro k; rfl
    | cons f fs ih =>
      intro k
      simp only [buildFileHeaders, List.map_cons, ih]
  · intro data hs
    induction hs with
    | nil => intro o _; rfl
    | cons h rest ih =>
      intro o hnone
      rw [extractFiles_cons] at hnone ⊢
      by_cases hc : o + h.size > data.length
      · rw [if_pos hc] at hnone
        simp at hnone
      · rw [if_neg hc] at hnone ⊢
        dsimp only at hnone ⊢
        rw [List.map_cons, ih (o + h.size) hnone]
        simp

/-- Witness for claim C8: one stored name with a backslash is restored with
the host separator. -/
theorem separator_translation_witness :
    (extractFiles [9] [{ name := "x\\y", size := 1, timestamp := 0 }] 0).1.map
        (fun f => f.name)
      = ["x/y"] :=
  (separator_translation.2.1 [9] [{ name := "x\\y", size := 1, timestamp := 0 }] 0
    (by decide)).trans (by decide)

/-- Claim C9: a string with no ASCII code point packs to the lone null
byte, byte-identical to the start of the terminator header; consequently
the archive created from `c9Tree` (one file whose relative path `ñ`
encodes to the empty ASCII string) carries an entry header whose name field
decodes as empty, header-table parsing stops at that entry as if it were
the terminator, and extraction fails with `NoEntries`. -/
theorem empty_ascii_name_acts_as_terminator :
    (∀ s : String, (∀ c ∈ s.data, 128 ≤ c.toNat) → pack_string s = [0])
    ∧ create_pbo c9Tree = .ok c9Bytes
    ∧ unpack_string c9Bytes 22 = ("", 23)
    ∧ parseHeadersPhase c9Bytes = ([], 43)
    ∧ extract_pbo c9Bytes = ([], some PboErr.NoEntries) := by
  refine ⟨?_, rfl, by decide, by decide, by decide⟩
  intro s hs
  unfold pack_string
  have hfe : s.data.filter (fun c => c.toNat < 128) = [] := by
    rw [List.filter_eq_nil_iff]
    intro c hc
    simpa using hs c hc
  rw [hfe]
  rfl

/-- Witness for claim C9 at the one-character non-ASCII string. -/
theorem empty_ascii_name_witness :
    (∀ c ∈ ("ñ" : String).data, 128 ≤ c.toNat) ∧ pack_string "ñ" = [0] :=
  ⟨by decide, empty_ascii_name_acts_as_terminator.1 "ñ" (by decide)⟩

/-- Claim C10: during header-table parsing, a decoded non-empty entry name
with fewer than twenty bytes left for the numeric fields stops the scan
silently at the post-name cursor, recording nothing for that entry; the
extraction then proceeds with the entries decoded so far, or fails with
`NoEntries` when none were decoded. -/
theorem header_table_silent_stop :
    (∀ (data : List Nat) (offset : Nat), offset < data.length →
      (unpack_string data offset).1 ≠ "" →
      data.length < (unpack_string data offset).2 + 20 →
      readHeaders data offset = ([], (unpack_string data offset).2))
    ∧ (∀ data : List Nat, (parseHeadersPhase data).1 ≠ [] →
        extract_pbo data
          = extractFiles data (parseHeadersPhase data).1 (parseHeadersPhase data).2)
    ∧ (∀ data : List Nat, (parseHeadersPhase data).1 = [] →
        extract_pbo data = ([], some PboErr.NoEntries)) := by
  refine ⟨?_, ?_, ?_⟩
  · intro data offset hlt hname hbig
    rw [readHeaders_step, if_pos hlt, if_neg hname, if_pos hbig]
  · intro data hnonnil
    rw [extract_pbo_eq, if_neg (by simpa using hnonnil)]
  · intro data h
    rw [extract_pbo_eq, h]
    rfl

/-- Witness for claim C10 on a five-byte buffer whose lone entry name `a`
leaves only three bytes for the twenty field bytes. -/
theorem header_table_silent_stop_witness :
    readHeaders [97, 0, 1, 2, 3] 0 = ([], 2) :=
  header_table_silent_stop.1 [97, 0, 1, 2, 3] 0 (by decide) (by decide) (by decide)

end PBOFile
